import Mathlib

/-!
Shallow embedding of the trend-generation / link-validation / discussion-posting
scripts of the `Shapehaven-Innovations/.github` repository, with theorems
settling the frozen claims about them.

Conventions of the embedding:
* An HTTP fetch outcome is `Except String Nat`: `Except.error m` models a thrown
  network error, `Except.ok s` a response with status code `s`.
* Asynchronous operations become pure functions over explicit oracles: the result
  of the n-th invocation of an operation is a function of `n`.
* Strings are the structure wrapping `List Char`; substring search, replacement
  and the markdown-link scan are implemented character by character, following
  the regular expressions of the source.
-/

namespace TrendScripts

/-- Does `pat` occur as a contiguous substring of `s` (character lists)? -/
def containsSubCh : List Char → List Char → Bool
  | [], pat => pat.isEmpty
  | c :: rest, pat => pat.isPrefixOf (c :: rest) || containsSubCh rest pat

/-- Does `pat` occur as a contiguous substring of `s`? -/
def containsSub (s pat : String) : Bool :=
  containsSubCh s.data pat.data

/-- Model of the `$`-substitution `String.prototype.replace` performs on a
string replacement argument, for a pattern with no capture groups and no
named groups (the regular expression `sanitizeLinks` builds has every special
character escaped, so it captures nothing): `$$` yields a dollar sign, `$&`
the matched text, a dollar sign followed by a backquote (code 96) the part of
the input before the match, `$` followed by a single quote (code 39) the part
after it; every other character — including `$n` with no such group and a
lone trailing `$` — is copied through literally. -/
def getSubstitution (matched before after : List Char) : List Char → List Char
  | [] => []
  | [c] => [c]
  | c :: c2 :: rest =>
    if c = '$' then
      if c2 = '$' then '$' :: getSubstitution matched before after rest
      else if c2 = '&' then matched ++ getSubstitution matched before after rest
      else if c2 = Char.ofNat 96 then before ++ getSubstitution matched before after rest
      else if c2 = Char.ofNat 39 then after ++ getSubstitution matched before after rest
      else '$' :: c2 :: getSubstitution matched before after rest
    else c :: getSubstitution matched before after (c2 :: rest)

/-- Scanner for `String.prototype.replace` with a non-global regular
expression whose special characters have all been escaped: find the first
occurrence of `pat`, replace it by the `$`-substituted replacement string,
and keep the rest.  `before` accumulates the part of the input already
scanned (the portion a backquote substitution inserts). -/
def replaceFirstAux (pat repl : List Char) : List Char → List Char → List Char
  | _, [] => []
  | before, c :: rest =>
    if pat.isPrefixOf (c :: rest) then
      getSubstitution pat before ((c :: rest).drop pat.length) repl ++
        (c :: rest).drop pat.length
    else c :: replaceFirstAux pat repl (before ++ [c]) rest

/-- Replace the first occurrence of `pat` in `s` by `repl`, with the
`$`-substitution semantics of `String.prototype.replace` (character lists). -/
def replaceFirstCh (s pat repl : List Char) : List Char :=
  replaceFirstAux pat repl [] s

/-- Replace the first occurrence of `pat` in `s` by `repl`, with the
`$`-substitution semantics of `String.prototype.replace` — the operation used
by `sanitizeLinks`. -/
def replaceFirst (s pat repl : String) : String :=
  String.mk (replaceFirstCh s.data pat.data repl.data)

/-- Model of `rawPEM.replace(/\\n/g, "\n")`: rewrite every literal backslash-n pair to a
newline, left to right, as in the configuration block of
`generateDiscussionPost.js` line 38. -/
def pemNormalize : List Char → List Char
  | [] => []
  | '\\' :: 'n' :: rest => '\n' :: pemNormalize rest
  | c :: rest => c :: pemNormalize rest

/-- A JavaScript whitespace character (the ASCII ones; `\s` and `trim` also
cover exotic unicode spaces, which never occur in the data handled here). -/
def jsWs (c : Char) : Bool :=
  c = ' ' || c = '\t' || c = '\n' || c = '\r' || c = '\x0b' || c = '\x0c'

/-- Model of `String.prototype.trim()`: strip leading and trailing whitespace. -/
def jsTrim (s : String) : String :=
  String.mk (((s.data.dropWhile jsWs).reverse.dropWhile jsWs).reverse)

/-- Model of `String.prototype.startsWith(pat)`. -/
def jsStartsWith (s pat : String) : Bool :=
  pat.data.isPrefixOf s.data

/-- Model of `Array.prototype.join(sep)` on a list of strings. -/
def joinSep (sep : String) : List String → String
  | [] => ""
  | [x] => x
  | x :: y :: xs => x ++ sep ++ joinSep sep (y :: xs)

/- ── Retry wrapper (`withRetry`, generateTrendDiscussion.js lines 60-71) ── -/

/-- The function `withRetry fn retries delay attempt` runs `fn` starting at invocation index
`attempt`; on failure it waits `delay`, doubles the delay and retries while
`retries > 0`, finally propagating the last error.  It returns the final
result, the number of invocations performed, and the list of waits incurred
(in order).  Translated from

```js
async function withRetry(fn, retries = 2, delay = 500) {
  try { return await fn(); }
  catch (err) {
    if (retries > 0) {
      await new Promise((r) => setTimeout(r, delay));
      return withRetry(fn, retries - 1, delay * 2);
    }
    throw err;
  }
}
```
-/
def withRetry {E A : Type} (fn : Nat → Except E A) :
    Nat → Nat → Nat → Except E A × Nat × List Nat
  | 0, _, attempt =>
    match fn attempt with
    | Except.ok a => (Except.ok a, 1, [])
    | Except.error e => (Except.error e, 1, [])
  | Nat.succ r, delay, attempt =>
    match fn attempt with
    | Except.ok a => (Except.ok a, 1, [])
    | Except.error _ =>
      ((withRetry fn r (delay * 2) (attempt + 1)).1,
       (withRetry fn r (delay * 2) (attempt + 1)).2.1 + 1,
       delay :: (withRetry fn r (delay * 2) (attempt + 1)).2.2)

/- ── HTTP liveness probes ── -/

/-- Model of `Response.ok` of the Fetch API: status in the 2xx range. -/
def statusOk (s : Nat) : Bool := 200 ≤ s && s < 300

/-- Did a fetch outcome return a 2xx response (errors count as not ok)? -/
def respOk (r : Except String Nat) : Bool :=
  match r with
  | Except.ok s => statusOk s
  | Except.error _ => false

/-- HTTP methods issued by the probes. -/
inductive Method where
  | headM
  | getM
deriving DecidableEq, Repr

/-- The GET phase of `isUrlAlive`: `return get.ok` with a catch returning
`false`. -/
def getPhase (get : Except String Nat) : Bool :=
  match get with
  | Except.ok s => statusOk s
  | Except.error _ => false

/-- Translation of `isUrlAlive` of `generateDiscussionPost.js` lines 70-81, as a function of
the outcomes of the HEAD and GET fetches for the probed URL:

```js
async function isUrlAlive(url) {
  try {
    const head = await fetch(url, { method: "HEAD" });
    if (head.ok) return true;
  } catch {}
  try {
    const get = await fetch(url, { method: "GET" });
    return get.ok;
  } catch {
    return false;
  }
}
```
-/
def isUrlAlive (head get : Except String Nat) : Bool :=
  match head with
  | Except.ok s => if statusOk s then true else getPhase get
  | Except.error _ => getPhase get

/-- The probe `isUrlAlive` rendered in the exception monad, keeping the try/catch
structure explicit: any error of the HEAD fetch falls through to the GET
attempt and any error of the GET fetch is caught and turned into `false`. -/
def isUrlAliveE (head get : Except String Nat) : Except String Bool :=
  match head.map statusOk with
  | Except.ok true => Except.ok true
  | _ =>
    match get.map statusOk with
    | Except.ok b => Except.ok b
    | Except.error _ => Except.ok false

/-- The requests `isUrlAlive` issues: HEAD always; GET exactly when the HEAD
fetch was not a 2xx response (non-2xx status or thrown error). -/
def isUrlAliveCalls (head : Except String Nat) : List Method :=
  match head with
  | Except.ok s => if statusOk s then [Method.headM] else [Method.headM, Method.getM]
  | Except.error _ => [Method.headM, Method.getM]

/-- The inline liveness probe of `sanitizeLinks` (unnamed part_007 lines
120-135): a single HEAD fetch; `ok = res.ok`, and a thrown error leaves
`ok = false`.  No GET request is ever issued. -/
def sanitizeProbe (head : Except String Nat) : Bool :=
  match head with
  | Except.ok s => statusOk s
  | Except.error _ => false

/-- The requests the `sanitizeLinks` inline probe issues: HEAD only. -/
def sanitizeProbeCalls (_head : Except String Nat) : List Method :=
  [Method.headM]

/- ── Markdown link scanning (`sanitizeLinks`, unnamed part_007 lines 115-152)

The link regular expression of the source is
`/\[([^\]]+)\]\((https?:\/\/[^\s)]+)\)/g`; `matchAll` yields its
non-overlapping matches left to right. ── -/

/-- A character matched by `[^\s)]` (JavaScript `\s` on the whitespace
characters relevant here, and not a closing parenthesis). -/
def isUrlChar (c : Char) : Bool :=
  !(c = ' ' || c = '\t' || c = '\n' || c = '\r' || c = '\x0b' || c = '\x0c') && c ≠ ')'

/-- The characters of the literal scheme `http://`. -/
def httpChars : List Char := ['h', 't', 't', 'p', ':', '/', '/']

/-- The characters of the literal scheme `https://`. -/
def httpsChars : List Char := ['h', 't', 't', 'p', 's', ':', '/', '/']

/-- Strip a leading `https://` or `http://` (the `https?:\/\/` part of the link
regular expression), returning the scheme consumed and the remainder. -/
def stripScheme (l : List Char) : Option (List Char × List Char) :=
  if httpsChars.isPrefixOf l then some (httpsChars, l.drop 8)
  else if httpChars.isPrefixOf l then some (httpChars, l.drop 7)
  else none

/-- Try to match the link regular expression at the very start of `l`:
a `[`, one or more non-`]` characters (the anchor text), `](`, the scheme,
one or more `[^\s)]` characters, and `)`.  On success, return the anchor
text, the full URL, and the remainder of the input after the match. -/
def matchLinkAt : List Char → Option (String × String × List Char)
  | '[' :: rest =>
    match rest.takeWhile (fun x => x ≠ ']'), rest.dropWhile (fun x => x ≠ ']') with
    | tc :: tcs, ']' :: '(' :: rest2 =>
      match stripScheme rest2 with
      | some (scheme, rest3) =>
        match rest3.takeWhile isUrlChar, rest3.dropWhile isUrlChar with
        | uc :: ucs, ')' :: rest5 =>
          some (String.mk (tc :: tcs), String.mk (scheme ++ uc :: ucs), rest5)
        | _, _ => none
      | none => none
    | _, _ => none
  | _ => none

theorem dropWhile_length_le (p : Char → Bool) :
    ∀ l : List Char, (l.dropWhile p).length ≤ l.length
  | [] => Nat.le_refl _
  | c :: rest => by
    by_cases h : p c
    · rw [List.dropWhile_cons_of_pos h]
      exact Nat.le_trans (dropWhile_length_le p rest) (Nat.le_succ _)
    · rw [List.dropWhile_cons_of_neg (by simpa using h)]

theorem stripScheme_length {l scheme rest : List Char}
    (h : stripScheme l = some (scheme, rest)) : rest.length ≤ l.length := by
  unfold stripScheme at h
  split at h
  · cases h
    exact (List.length_drop 8 l) ▸ Nat.sub_le _ _
  · split at h
    · cases h
      exact (List.length_drop 7 l) ▸ Nat.sub_le _ _
    · cases h

theorem matchLinkAt_rem_length {l : List Char} {t u : String} {rem : List Char}
    (h : matchLinkAt l = some (t, u, rem)) : rem.length < l.length := by
  match l with
  | [] => cases h
  | c :: rest =>
    unfold matchLinkAt at h
    split at h
    · rename_i rest' heq
      injection heq with hc hrest
      subst hc hrest
      split at h
      · rename_i tc tcs rest2 htake hdrop
        split at h
        · rename_i scheme rest3 hscheme
          split at h
          · rename_i uc ucs rest5 hutake hudrop
            injection h with h'
            injection h' with h1 h2
            injection h2 with h2a h2b
            subst h2b
            have hd1 : (rest.dropWhile (fun x => x ≠ ']')).length ≤ rest.length :=
              dropWhile_length_le _ _
            have hd2 : (rest3.dropWhile isUrlChar).length ≤ rest3.length :=
              dropWhile_length_le _ _
            have h3 : rest3.length ≤ rest2.length := stripScheme_length hscheme
            rw [hdrop] at hd1
            rw [hudrop] at hd2
            simp only [List.length_cons] at hd1 hd2 ⊢
            omega
          · cases h
        · cases h
      · cases h
    · cases h

/-- All non-overlapping matches of the link regular expression in the input,
scanning left to right: a failed start position advances one character, a
successful match resumes after the match (the behaviour of `matchAll`). -/
def extractLinksAux : List Char → List (String × String)
  | [] => []
  | c :: rest =>
    match h : matchLinkAt (c :: rest) with
    | some (t, u, rem) =>
      have : rem.length < rest.length + 1 := by
        have := matchLinkAt_rem_length h
        simpa using this
      (t, u) :: extractLinksAux rem
    | none => extractLinksAux rest
termination_by l => l.length

/-- Fuel-indexed runner for the scan, structurally recursive on the fuel so
that it evaluates by kernel reduction; `extractLinksFuel_eq` shows it agrees
with `extractLinksAux` whenever the fuel covers the input length. -/
def extractLinksFuel : Nat → List Char → List (String × String)
  | 0, _ => []
  | fuel + 1, l =>
    match l with
    | [] => []
    | c :: rest =>
      match matchLinkAt (c :: rest) with
      | some (t, u, rem) => (t, u) :: extractLinksFuel fuel rem
      | none => extractLinksFuel fuel rest

theorem extractLinksAux_nil : extractLinksAux [] = [] := by
  unfold extractLinksAux
  rfl

theorem extractLinksAux_cons_some {c : Char} {rest : List Char} {t u : String}
    {rem : List Char} (hm : matchLinkAt (c :: rest) = some (t, u, rem)) :
    extractLinksAux (c :: rest) = (t, u) :: extractLinksAux rem := by
  conv_lhs => unfold extractLinksAux
  split
  · rename_i t' u' rem' hm'
    rw [hm] at hm'
    injection hm' with h1
    injection h1 with h1 h2
    injection h2 with h2 h3
    rw [h1, h2, h3]
  · rename_i hm'
    rw [hm] at hm'
    cases hm'

theorem extractLinksAux_cons_none {c : Char} {rest : List Char}
    (hm : matchLinkAt (c :: rest) = none) :
    extractLinksAux (c :: rest) = extractLinksAux rest := by
  conv_lhs => unfold extractLinksAux
  split
  · rename_i t' u' rem' hm'
    rw [hm] at hm'
    cases hm'
  · rfl

theorem extractLinksFuel_eq :
    ∀ (fuel : Nat) (l : List Char), l.length ≤ fuel →
      extractLinksFuel fuel l = extractLinksAux l
  | 0, [], _ => extractLinksAux_nil.symm
  | 0, _ :: _, h => absurd h (by simp)
  | fuel + 1, [], _ => extractLinksAux_nil.symm
  | fuel + 1, c :: rest, h => by
    rw [extractLinksFuel]
    cases hm : matchLinkAt (c :: rest) with
    | some v =>
      obtain ⟨t, u, rem⟩ := v
      have hlt : rem.length < (c :: rest).length := matchLinkAt_rem_length hm
      simp only [List.length_cons] at hlt h
      show (t, u) :: extractLinksFuel fuel rem = extractLinksAux (c :: rest)
      rw [extractLinksAux_cons_some hm, extractLinksFuel_eq fuel rem (by omega)]
    | none =>
      simp only [List.length_cons] at h
      show extractLinksFuel fuel rest = extractLinksAux (c :: rest)
      rw [extractLinksAux_cons_none hm, extractLinksFuel_eq fuel rest (by omega)]

/-- The markdown links `[text](url)` occurring in `md`, in order. -/
def extractLinks (md : String) : List (String × String) :=
  extractLinksFuel md.data.length md.data

theorem extractLinks_eq_aux (md : String) :
    extractLinks md = extractLinksAux md.data :=
  extractLinksFuel_eq _ _ (Nat.le_refl _)

/-- The literal string `[text](url)`: the exact substring the source rebuilds
(with every regex special escaped) in order to strip a dead link. -/
def linkPattern (text url : String) : String :=
  "[" ++ text ++ "](" ++ url ++ ")"

/-- The loop body of `sanitizeLinks`: process the matches in order, skipping
URLs already seen, probing each new URL once, and stripping the first
occurrence of `[text](url)` down to `text` when the probe says dead.
Returns the final text and the list of URLs probed, in order. -/
def sanitizeLoop (alive : String → Bool) :
    List (String × String) → List String → String → String × List String
  | [], _, safe => (safe, [])
  | (text, url) :: rest, seen, safe =>
    if url ∈ seen then sanitizeLoop alive rest seen safe
    else
      let ok := alive url
      let safe2 := if ok then safe else replaceFirst safe (linkPattern text url) text
      let next := sanitizeLoop alive rest (url :: seen) safe2
      (next.1, url :: next.2)

/-- Translation of `sanitizeLinks` of unnamed part_007 lines 115-152, as a function of the
outcome of the HEAD fetch for each URL (its probe issues HEAD only; a non-2xx
status or a thrown error marks the URL dead).  Returns the sanitized text
together with the list of URLs probed. -/
def sanitizeLinks (headResp : String → Except String Nat) (markdown : String) :
    String × List String :=
  sanitizeLoop (fun u => sanitizeProbe (headResp u)) (extractLinks markdown) [] markdown

/- ── Trend fetching (`fetchTrends`, generateTrendDiscussion.js lines 74-112;
`fetchTrendCandidates`, generateDiscussionPost.js lines 110-136) ── -/

/-- JSON values, the possible results of `JSON.parse`. -/
inductive Json where
  | null
  | bool (b : Bool)
  | num (n : Int)
  | str (s : String)
  | arr (xs : List Json)
  | obj (fields : List (String × Json))

/-- Errors raised by the trend-fetching functions. -/
inductive FetchError where
  | emptyResponse
  | parseFailure
  | notNonEmptyArray
deriving DecidableEq, Repr

/-- Translation of `fetchTrends` of generateTrendDiscussion.js lines 74-112, as a function of
the generator response: `content` is `resp.choices?.[0]?.message?.content`
(`none` when the optional chain is undefined) and `parsed` stands for the
result of `JSON.parse` on the trimmed content (`none` when parsing throws).

```js
const raw = resp.choices?.[0]?.message?.content?.trim();
if (!raw) throw new Error("Empty response from OpenAI");
let trends;
try { trends = JSON.parse(raw); } catch (err) { ...; throw err; }
if (!Array.isArray(trends) || trends.length === 0) {
  throw new Error("Parsed data is not a non-empty array");
}
return trends;
```
-/
def fetchTrends (content : Option String) (parsed : Option Json) :
    Except FetchError (List Json) :=
  match content with
  | none => Except.error FetchError.emptyResponse
  | some c =>
    if jsTrim c = "" then Except.error FetchError.emptyResponse
    else
      match parsed with
      | none => Except.error FetchError.parseFailure
      | some (Json.arr xs) =>
        if xs.isEmpty then Except.error FetchError.notNonEmptyArray
        else Except.ok xs
      | some _ => Except.error FetchError.notNonEmptyArray

/-- Translation of `fetchTrendCandidates` of generateDiscussionPost.js lines 110-136, as a
function of the parse result of the generator response: it only guards against
a parse failure and passes any parsed value through unchecked.

```js
try {
  return JSON.parse(resp.choices[0].message.content);
} catch {
  throw new Error("❌ Failed to parse JSON from OpenAI response.");
}
```
-/
def fetchTrendCandidates (parsed : Option Json) : Except FetchError Json :=
  match parsed with
  | none => Except.error FetchError.parseFailure
  | some j => Except.ok j

/- ── Trend assembly (`assembleValidTrends`, generateDiscussionPost.js
lines 172-207) ── -/

/-- The trend item schema of generateDiscussionPost.js. -/
structure TrendItem where
  title : String
  exampleTitle : String
  url : String
  description : String
deriving DecidableEq, Repr

/-- Constant `NUM_TRENDS` of generateDiscussionPost.js line 27. -/
def NUM_TRENDS : Nat := 5

/-- Translation of `toMarkdown` of generateDiscussionPost.js lines 164-169:

```js
function toMarkdown({ title, exampleTitle, url, description }) {
  return `### ${title}\n\n*_${exampleTitle}_*  \n${description.trim()}`;
}
```

Note that the `url` field is not rendered. -/
def toMarkdown (t : TrendItem) : String :=
  "### " ++ t.title ++ "\n\n*_" ++ t.exampleTitle ++ "_*  \n" ++ jsTrim t.description

/-- The tail of `getReplacementLink` (generateDiscussionPost.js lines 83-107)
applied to the chat-completion content it received:

```js
const url = resp.choices?.[0]?.message?.content.trim();
return url?.startsWith("http") ? url : null;
```
-/
def getReplacementLink (content : String) : Option String :=
  let url := jsTrim content
  if jsStartsWith url "http" then some url else none

/-- The external world of `assembleValidTrends`: outcomes of the HEAD and GET
fetches per URL, the chat-completion content of the replacement-link request
per `exampleTitle`, and the successive results of `fetchAdditionalTrend`. -/
structure Oracles where
  headResp : String → Except String Nat
  getResp : String → Except String Nat
  replContent : String → String
  extra : Nat → TrendItem

/-- The result of the `isUrlAlive` probe for a URL under the oracles. -/
def aliveO (o : Oracles) (u : String) : Bool :=
  isUrlAlive (o.headResp u) (o.getResp u)

/-- One iteration of the `for (const item of raw)` loop of
`assembleValidTrends` (lines 176-195): keep the item if its URL is alive;
otherwise ask for a replacement link and keep the item with the replacement
URL if that is alive; otherwise fetch one additional trend (consuming index
`k` of the `extra` oracle) and keep it only if its URL is alive.  Returns the
updated `valid` list and the next additional-trend index. -/
def assembleStep (o : Oracles) (k : Nat) (item : TrendItem)
    (valid : List TrendItem) : List TrendItem × Nat :=
  if aliveO o item.url then (valid ++ [item], k)
  else
    match getReplacementLink (o.replContent item.exampleTitle) with
    | some r =>
      if aliveO o r then (valid ++ [{ item with url := r }], k)
      else
        let e := o.extra k
        (if aliveO o e.url then valid ++ [e] else valid, k + 1)
    | none =>
      let e := o.extra k
      (if aliveO o e.url then valid ++ [e] else valid, k + 1)

/-- The `for` loop of `assembleValidTrends`, with the
`if (valid.length >= NUM_TRENDS) break;` check after each iteration. -/
def assembleFor (o : Oracles) :
    List TrendItem → List TrendItem → Nat → List TrendItem × Nat
  | [], valid, k => (valid, k)
  | item :: rest, valid, k =>
    let step := assembleStep o k item valid
    if NUM_TRENDS ≤ step.1.length then step
    else assembleFor o rest step.1 step.2

/-- The `while (valid.length < NUM_TRENDS)` supplement loop of
`assembleValidTrends` (lines 200-204), bounded by explicit fuel: `none` means
the loop had not finished within `fuel` further iterations. -/
def assembleWhile (o : Oracles) : Nat → List TrendItem → Nat → Option (List TrendItem)
  | 0, valid, _ =>
    if NUM_TRENDS ≤ valid.length then some valid else none
  | Nat.succ fuel, valid, k =>
    if NUM_TRENDS ≤ valid.length then some valid
    else
      assembleWhile o fuel
        (if aliveO o (o.extra k).url then valid ++ [o.extra k] else valid) (k + 1)

/-- Translation of `assembleValidTrends` of generateDiscussionPost.js lines 172-207 for a
given candidate list `raw` (the parsed result of `fetchTrendCandidates`):
run the `for` loop, then the `while` supplement loop, then
`valid.slice(0, NUM_TRENDS).map(toMarkdown).join("\n\n")`. -/
def assembleValidTrends (o : Oracles) (raw : List TrendItem) (fuel : Nat) :
    Option String :=
  match assembleWhile o fuel (assembleFor o raw [] 0).1 (assembleFor o raw [] 0).2 with
  | some valid =>
    some (joinSep "\n\n" ((valid.take NUM_TRENDS).map toMarkdown))
  | none => none

/- ── Discussion category lookup and posting (generateTrendDiscussion.js
lines 115-163; generateDiscussionPost.js lines 210-247) ── -/

/-- A node of `discussionCategories(first:20)`. -/
structure Category where
  id : String
  name : String
deriving DecidableEq, Repr

/-- The repository data returned by the category-listing GraphQL query. -/
structure RepoData where
  repositoryId : String
  categories : List Category
deriving DecidableEq, Repr

/-- The outbound platform calls the publisher can issue.  `createCategory` is
part of the vocabulary only so that its absence can be stated; no script ever
issues it. -/
inductive ApiCall where
  | categoryQuery
  | createDiscussion (repositoryId categoryId title body : String)
  | createCategory (name : String)
deriving DecidableEq, Repr

/-- Translation of `fetchRepoInfo` of generateTrendDiscussion.js lines 115-134, as a function
of the query result:

```js
const cat = cats.find((c) => c.name === "Tech Trends");
if (!cat) { throw new Error('Discussion category "Tech Trends" not found'); }
return { repositoryId, categoryId: cat.id };
```
-/
def fetchRepoInfo (r : RepoData) : Except String (String × String) :=
  match r.categories.find? (fun c => c.name = "Tech Trends") with
  | some cat => Except.ok (r.repositoryId, cat.id)
  | none => Except.error "Discussion category \"Tech Trends\" not found"

/-- Translation of `fetchCategory` of generateDiscussionPost.js lines 210-224 (same lookup,
shorter message), paired with the call it issues: the category-listing query
is sent unconditionally before the lookup. -/
def fetchCategory (r : RepoData) : Except String (String × String) × List ApiCall :=
  (match r.categories.find? (fun c => c.name = "Tech Trends") with
   | some cat => Except.ok (r.repositoryId, cat.id)
   | none => Except.error "Category \"Tech Trends\" not found",
   [ApiCall.categoryQuery])

/-- Translation of `postDiscussion` of generateTrendDiscussion.js lines 137-163, as a function
of the category-listing result: it resolves the category via `fetchRepoInfo`
and only then issues the `createDiscussion` mutation.  Returns the outcome and
the list of platform calls issued, in order. -/
def postDiscussion (r : RepoData) (title markdown : String) :
    Except String Unit × List ApiCall :=
  match fetchRepoInfo r with
  | Except.error e => (Except.error e, [ApiCall.categoryQuery])
  | Except.ok (rid, cid) =>
    (Except.ok (),
     [ApiCall.categoryQuery, ApiCall.createDiscussion rid cid title markdown])

/- ── Configuration (generateDiscussionPost.js lines 26-53) ── -/

/-- The environment variables the configuration block of
generateDiscussionPost.js destructures (lines 28-35), in order. -/
def configEnvNames : List String :=
  ["OPENAI_API_KEY", "OPENAI_MODEL", "GITHUB_REPOSITORY", "APP_ID",
   "INSTALLATION_ID", "APP_PRIVATE_KEY"]

/-- The configuration values generateDiscussionPost.js computes from the
environment. -/
structure Config where
  openaiApiKey : Option String
  openaiModel : String
  githubRepository : Option String
  appId : Option String
  installationId : Option String
  appPrivateKey : Option String
deriving DecidableEq, Repr

/-- The configuration block of generateDiscussionPost.js lines 26-38, as a
function of the environment:

```js
const { OPENAI_API_KEY, OPENAI_MODEL: _OPENAI_MODEL, GITHUB_REPOSITORY,
        APP_ID, INSTALLATION_ID, APP_PRIVATE_KEY: rawPEM } = process.env;
const OPENAI_MODEL = (_OPENAI_MODEL || "").trim() || "gpt-4";
const APP_PRIVATE_KEY = rawPEM && rawPEM.replace(/\\n/g, "\n");
```
-/
def configuration (env : String → Option String) : Config :=
  let model := jsTrim ((env "OPENAI_MODEL").getD "")
  { openaiApiKey := env "OPENAI_API_KEY"
    openaiModel := if model = "" then "gpt-4" else model
    githubRepository := env "GITHUB_REPOSITORY"
    appId := env "APP_ID"
    installationId := env "INSTALLATION_ID"
    appPrivateKey := (env "APP_PRIVATE_KEY").map (fun s => String.mk (pemNormalize s.data)) }

/- ── Helper lemmas about the link scanner and the replacement primitive ── -/

theorem matchLinkAt_not_bracket {c : Char} {l : List Char} (hc : c ≠ '[') :
    matchLinkAt (c :: l) = none := by
  unfold matchLinkAt
  split
  · rename_i rest heq
    injection heq with h1 _
    exact absurd h1 hc
  · rfl

theorem extract_skip :
    ∀ (p r : List Char), (∀ c ∈ p, c ≠ '[') → extractLinksAux (p ++ r) = extractLinksAux r
  | [], _, _ => rfl
  | c :: p', r, h => by
    rw [List.cons_append,
      extractLinksAux_cons_none (matchLinkAt_not_bracket (h c (by simp)))]
    exact extract_skip p' r (fun x hx => h x (by simp [hx]))

theorem takeWhile_append_all {p : Char → Bool} :
    ∀ (l : List Char) (b : Char) (r : List Char), (∀ c ∈ l, p c = true) → p b = false →
      (l ++ b :: r).takeWhile p = l
  | [], b, r, _, hb => by simp [List.takeWhile_cons, hb]
  | c :: l', b, r, h, hb => by
    rw [List.cons_append, List.takeWhile_cons_of_pos (h c (by simp))]
    rw [takeWhile_append_all l' b r (fun x hx => h x (by simp [hx])) hb]

theorem dropWhile_append_all {p : Char → Bool} :
    ∀ (l : List Char) (b : Char) (r : List Char), (∀ c ∈ l, p c = true) → p b = false →
      (l ++ b :: r).dropWhile p = b :: r
  | [], b, r, _, hb => by simp [List.dropWhile_cons, hb]
  | c :: l', b, r, h, hb => by
    rw [List.cons_append, List.dropWhile_cons_of_pos (h c (by simp))]
    exact dropWhile_append_all l' b r (fun x hx => h x (by simp [hx])) hb

theorem stripScheme_http (x : List Char) :
    stripScheme (httpChars ++ x) = some (httpChars, x) := by
  have h1 : httpsChars.isPrefixOf (httpChars ++ x) = false := by
    simp [httpsChars, httpChars, List.isPrefixOf]
  have h2 : httpChars.isPrefixOf (httpChars ++ x) = true := by
    simp [httpChars, List.isPrefixOf]
  unfold stripScheme
  rw [h1, h2]
  simp only [Bool.false_eq_true, if_false, if_true]
  rw [show (7 : Nat) = httpChars.length from rfl, List.drop_left]

theorem matchLink_cons_boundary (tc : Char) (tcs : List Char) (uc : Char)
    (ucs : List Char) (post : List Char)
    (ht1 : ∀ c ∈ tc :: tcs, c ≠ ']')
    (hu1 : ∀ c ∈ uc :: ucs, isUrlChar c = true) :
    matchLinkAt ('[' :: ((tc :: tcs) ++ ']' :: '(' ::
        (httpChars ++ ((uc :: ucs) ++ ')' :: post)))) =
      some (String.mk (tc :: tcs), String.mk (httpChars ++ uc :: ucs), post) := by
  have htake : ((tc :: tcs) ++ ']' :: '(' ::
      (httpChars ++ ((uc :: ucs) ++ ')' :: post))).takeWhile
      (fun x => x ≠ ']') = tc :: tcs :=
    takeWhile_append_all _ _ _ (fun c hc => by simp [ht1 c hc]) (by simp)
  have hdrop : ((tc :: tcs) ++ ']' :: '(' ::
      (httpChars ++ ((uc :: ucs) ++ ')' :: post))).dropWhile
      (fun x => x ≠ ']') = ']' :: '(' :: (httpChars ++ ((uc :: ucs) ++ ')' :: post)) :=
    dropWhile_append_all _ _ _ (fun c hc => by simp [ht1 c hc]) (by simp)
  have hutake : ((uc :: ucs) ++ ')' :: post).takeWhile isUrlChar = uc :: ucs :=
    takeWhile_append_all _ _ _ (fun c hc => hu1 c hc) (by decide)
  have hudrop : ((uc :: ucs) ++ ')' :: post).dropWhile isUrlChar = ')' :: post :=
    dropWhile_append_all _ _ _ (fun c hc => hu1 c hc) (by decide)
  unfold matchLinkAt
  split
  · rename_i rest' heq
    injection heq with h1 h2
    subst h2
    rw [htake, hdrop]
    simp only
    rw [stripScheme_http]
    simp only
    rw [hutake, hudrop]
    rfl
  · rename_i hno
    exact absurd rfl (hno _)

theorem isPrefixOf_self_append :
    ∀ (l r : List Char), l.isPrefixOf (l ++ r) = true
  | [], _ => by simp [List.isPrefixOf]
  | c :: l', r => by
    simp only [List.cons_append, List.isPrefixOf, beq_self_eq_true, Bool.true_and,
      List.append_eq]
    exact isPrefixOf_self_append l' r

theorem not_isPrefixOf_head_ne {a b : Char} {l m : List Char} (h : a ≠ b) :
    (a :: l).isPrefixOf (b :: m) = false := by
  simp [List.isPrefixOf, h]

theorem getSubstitution_cons_cons (matched before after : List Char) (c c2 : Char)
    (rest : List Char) :
    getSubstitution matched before after (c :: c2 :: rest) =
      if c = '$' then
        if c2 = '$' then '$' :: getSubstitution matched before after rest
        else if c2 = '&' then matched ++ getSubstitution matched before after rest
        else if c2 = Char.ofNat 96 then
          before ++ getSubstitution matched before after rest
        else if c2 = Char.ofNat 39 then
          after ++ getSubstitution matched before after rest
        else '$' :: c2 :: getSubstitution matched before after rest
      else c :: getSubstitution matched before after (c2 :: rest) := rfl

theorem getSubstitution_no_dollar (matched before after : List Char) :
    ∀ (repl : List Char), '$' ∉ repl →
      getSubstitution matched before after repl = repl
  | [], _ => rfl
  | [_], _ => rfl
  | c :: c2 :: rest, h => by
    have hc : c ≠ '$' := by
      intro he
      exact h (by rw [he]; exact List.mem_cons_self _ _)
    have htail : '$' ∉ c2 :: rest :=
      fun hm => h (List.mem_cons_of_mem c hm)
    rw [getSubstitution_cons_cons, if_neg hc,
      getSubstitution_no_dollar matched before after (c2 :: rest) htail]

theorem replaceFirstAux_cons (pat repl before : List Char) (c : Char)
    (rest : List Char) :
    replaceFirstAux pat repl before (c :: rest) =
      if pat.isPrefixOf (c :: rest) then
        getSubstitution pat before ((c :: rest).drop pat.length) repl ++
          (c :: rest).drop pat.length
      else c :: replaceFirstAux pat repl (before ++ [c]) rest := rfl

theorem replaceFirst_boundary {pat' repl : List Char} (hrepl : '$' ∉ repl) :
    ∀ (p r before : List Char), (∀ c ∈ p, c ≠ '[') →
      replaceFirstAux ('[' :: pat') repl before (p ++ ('[' :: pat') ++ r) =
        p ++ repl ++ r
  | [], r, before, _ => by
    show replaceFirstAux ('[' :: pat') repl before ('[' :: (pat' ++ r)) = repl ++ r
    rw [replaceFirstAux_cons]
    have hp : ('[' :: pat').isPrefixOf ('[' :: (pat' ++ r)) = true :=
      isPrefixOf_self_append ('[' :: pat') r
    rw [hp]
    simp only [if_true]
    have hd : ('[' :: (pat' ++ r)).drop ('[' :: pat').length = r :=
      List.drop_left ('[' :: pat') r
    rw [hd, getSubstitution_no_dollar ('[' :: pat') before r repl hrepl]
  | c :: p', r, before, h => by
    show replaceFirstAux ('[' :: pat') repl before
        (c :: ((p' ++ ('[' :: pat')) ++ r)) = c :: ((p' ++ repl) ++ r)
    rw [replaceFirstAux_cons]
    have hnp : ('[' :: pat').isPrefixOf (c :: ((p' ++ ('[' :: pat')) ++ r)) = false :=
      not_isPrefixOf_head_ne (fun he => (h c (by simp)) he.symm)
    rw [hnp]
    simp only [Bool.false_eq_true, if_false]
    have hrec := @replaceFirst_boundary pat' repl hrepl p' r (before ++ [c])
      (fun x hx => h x (by simp [hx]))
    exact congrArg (fun l => c :: l) hrec

theorem strData_ext {s t : String} (h : s.data = t.data) : s = t := by
  cases s
  cases t
  cases h
  rfl

theorem sanitizeLoop_count (alive : String → Bool) :
    ∀ (ms : List (String × String)) (seen : List String) (safe : String)
      (u : String),
      List.count u (sanitizeLoop alive ms seen safe).2 =
        if u ∈ ms.map Prod.snd ∧ u ∉ seen then 1 else 0
  | [], seen, safe, u => by simp [sanitizeLoop]
  | (t, v) :: rest, seen, safe, u => by
    by_cases hv : v ∈ seen
    · rw [show sanitizeLoop alive ((t, v) :: rest) seen safe =
        sanitizeLoop alive rest seen safe from by simp [sanitizeLoop, hv]]
      rw [sanitizeLoop_count alive rest seen safe u]
      by_cases huv : u = v
      · subst huv
        simp [hv]
      · rw [List.map_cons]
        refine if_congr ?_ rfl rfl
        simp [List.mem_cons, huv]
    · rw [show sanitizeLoop alive ((t, v) :: rest) seen safe =
        ((sanitizeLoop alive rest (v :: seen)
            (if alive v then safe else replaceFirst safe (linkPattern t v) t)).1,
          v :: (sanitizeLoop alive rest (v :: seen)
            (if alive v then safe else replaceFirst safe (linkPattern t v) t)).2)
        from by simp [sanitizeLoop, hv]]
      rw [List.count_cons]
      rw [sanitizeLoop_count alive rest (v :: seen) _ u]
      by_cases huv : u = v
      · subst huv
        simp [hv, List.mem_cons]
      · rw [List.map_cons]
        have h3 : (v == u) = false := by
          simp [Ne.symm huv]
        rw [h3]
        simp only [Bool.false_eq_true, if_false, Nat.add_zero]
        refine if_congr ?_ rfl rfl
        simp [List.mem_cons, huv]

/- ── Helper lemmas about `assembleValidTrends` ── -/

theorem assembleStep_alive {o : Oracles} {k : Nat} {item : TrendItem}
    {valid : List TrendItem} (h : aliveO o item.url = true) :
    assembleStep o k item valid = (valid ++ [item], k) := by
  unfold assembleStep
  rw [if_pos h]

theorem assembleStep_dead_some {o : Oracles} {k : Nat} {item : TrendItem}
    {valid : List TrendItem} {r : String} (h1 : aliveO o item.url = false)
    (hr : getReplacementLink (o.replContent item.exampleTitle) = some r) :
    assembleStep o k item valid =
      if aliveO o r then (valid ++ [{ item with url := r }], k)
      else (if aliveO o (o.extra k).url then valid ++ [o.extra k] else valid, k + 1) := by
  unfold assembleStep
  rw [if_neg (by simp [h1]), hr]

theorem assembleStep_dead_none {o : Oracles} {k : Nat} {item : TrendItem}
    {valid : List TrendItem} (h1 : aliveO o item.url = false)
    (hr : getReplacementLink (o.replContent item.exampleTitle) = none) :
    assembleStep o k item valid =
      (if aliveO o (o.extra k).url then valid ++ [o.extra k] else valid, k + 1) := by
  unfold assembleStep
  rw [if_neg (by simp [h1]), hr]

theorem assembleStep_split (o : Oracles) (k : Nat) (item : TrendItem)
    (valid : List TrendItem) :
    ∃ tail, (assembleStep o k item valid).1 = valid ++ tail ∧
      ∀ t ∈ tail, aliveO o t.url = true := by
  by_cases h1 : aliveO o item.url
  · exact ⟨[item], by rw [assembleStep_alive h1], by simp [h1]⟩
  · rw [Bool.not_eq_true] at h1
    cases hr : getReplacementLink (o.replContent item.exampleTitle) with
    | some r =>
      rw [assembleStep_dead_some h1 hr]
      by_cases h2 : aliveO o r
      · exact ⟨[{ item with url := r }], by rw [if_pos h2], by simp [h2]⟩
      · rw [if_neg h2]
        by_cases h3 : aliveO o (o.extra k).url
        · exact ⟨[o.extra k], by rw [if_pos h3], by simp [h3]⟩
        · exact ⟨[], by rw [if_neg h3]; simp, by simp⟩
    | none =>
      rw [assembleStep_dead_none h1 hr]
      by_cases h3 : aliveO o (o.extra k).url
      · exact ⟨[o.extra k], by rw [if_pos h3], by simp [h3]⟩
      · exact ⟨[], by rw [if_neg h3]; simp, by simp⟩

theorem assembleFor_split (o : Oracles) :
    ∀ (l : List TrendItem) (valid : List TrendItem) (k : Nat),
      ∃ tail, (assembleFor o l valid k).1 = valid ++ tail ∧
        ∀ t ∈ tail, aliveO o t.url = true
  | [], valid, k => ⟨[], by simp [assembleFor], by simp⟩
  | item :: rest, valid, k => by
    obtain ⟨t0, ht0, ha0⟩ := assembleStep_split o k item valid
    unfold assembleFor
    by_cases hb : NUM_TRENDS ≤ (assembleStep o k item valid).1.length
    · exact ⟨t0, by rw [if_pos hb]; exact ht0, ha0⟩
    · obtain ⟨t1, ht1, ha1⟩ :=
        assembleFor_split o rest (assembleStep o k item valid).1
          (assembleStep o k item valid).2
      refine ⟨t0 ++ t1, ?_, ?_⟩
      · rw [if_neg hb, ht1, ht0, List.append_assoc]
      · intro t ht
        rcases List.mem_append.mp ht with h | h
        · exact ha0 t h
        · exact ha1 t h

theorem assembleWhile_split (o : Oracles) :
    ∀ (fuel : Nat) (valid : List TrendItem) (k : Nat) (v : List TrendItem),
      assembleWhile o fuel valid k = some v →
      ∃ tail, v = valid ++ tail ∧ (∀ t ∈ tail, aliveO o t.url = true) ∧
        NUM_TRENDS ≤ v.length
  | 0, valid, k, v => by
    intro h
    unfold assembleWhile at h
    by_cases hlen : NUM_TRENDS ≤ valid.length
    · rw [if_pos hlen] at h
      injection h with h
      subst h
      exact ⟨[], by simp, by simp, hlen⟩
    · rw [if_neg hlen] at h
      cases h
  | Nat.succ fuel2, valid, k, v => by
    intro h
    unfold assembleWhile at h
    by_cases hlen : NUM_TRENDS ≤ valid.length
    · rw [if_pos hlen] at h
      injection h with h
      subst h
      exact ⟨[], by simp, by simp, hlen⟩
    · rw [if_neg hlen] at h
      by_cases he : aliveO o (o.extra k).url
      · rw [if_pos he] at h
        obtain ⟨tail, htail, halive, hlen2⟩ :=
          assembleWhile_split o fuel2 (valid ++ [o.extra k]) (k + 1) v h
        refine ⟨o.extra k :: tail, by simpa using htail, ?_, hlen2⟩
        intro t ht
        rcases List.mem_cons.mp ht with h2 | h2
        · rw [h2]; exact he
        · exact halive t h2
      · rw [if_neg he] at h
        exact assembleWhile_split o fuel2 valid (k + 1) v h

theorem toMarkdown_data_ne_nil (t : TrendItem) : (toMarkdown t).data ≠ [] := by
  unfold toMarkdown
  simp [String.data_append]

theorem str_ne_empty_of_data_ne {s : String} (h : s.data ≠ []) : s ≠ "" := by
  intro he
  rw [he] at h
  exact h rfl

theorem joinSep_toMarkdown_ne_empty :
    ∀ (items : List TrendItem), items ≠ [] →
      joinSep "\n\n" (items.map toMarkdown) ≠ ""
  | [], h => absurd rfl h
  | [t], _ => by
    show toMarkdown t ≠ ""
    exact str_ne_empty_of_data_ne (toMarkdown_data_ne_nil t)
  | t1 :: t2 :: rest, _ => by
    show toMarkdown t1 ++ "\n\n" ++
      joinSep "\n\n" (List.map toMarkdown (t2 :: rest)) ≠ ""
    apply str_ne_empty_of_data_ne
    rw [String.data_append, String.data_append]
    intro hnil
    rcases List.append_eq_nil.mp hnil with ⟨h1, _⟩
    rcases List.append_eq_nil.mp h1 with ⟨h2, _⟩
    exact toMarkdown_data_ne_nil t1 h2

/- ── Concrete instances used by witnesses and counterexamples ── -/

/-- A candidate trend item whose URL is dead in the worlds below. -/
def itemDead : TrendItem := ⟨"T1", "E1", "http://dead", "D1"⟩

/-- Four candidate trend items with live URLs. -/
def restItems : List TrendItem :=
  [⟨"T2", "E2", "http://a2", "D2"⟩, ⟨"T3", "E3", "http://a3", "D3"⟩,
   ⟨"T4", "E4", "http://a4", "D4"⟩, ⟨"T5", "E5", "http://a5", "D5"⟩]

/-- Five candidate trend items; the first one carries a dead URL. -/
def rawTrends5 : List TrendItem := itemDead :: restItems

/-- The markdown five live T1..T5 items assemble to. -/
def mdFive : String :=
  "### T1\n\n*_E1_*  \nD1\n\n### T2\n\n*_E2_*  \nD2\n\n### T3\n\n*_E3_*  \nD3\n\n### T4\n\n*_E4_*  \nD4\n\n### T5\n\n*_E5_*  \nD5"

/-- The markdown assembled from an empty candidate list when every URL is
alive: five copies of the supplemental trend TX. -/
def mdExtraFive : String :=
  "### TX\n\n*_EX_*  \nDX\n\n### TX\n\n*_EX_*  \nDX\n\n### TX\n\n*_EX_*  \nDX\n\n### TX\n\n*_EX_*  \nDX\n\n### TX\n\n*_EX_*  \nDX"

/-- The markdown assembled when the first item is dropped for the extra
trend TX. -/
def mdDropped : String :=
  "### TX\n\n*_EX_*  \nDX\n\n### T2\n\n*_E2_*  \nD2\n\n### T3\n\n*_E3_*  \nD3\n\n### T4\n\n*_E4_*  \nD4\n\n### T5\n\n*_E5_*  \nD5"

/-- World in which `http://dead` answers 404 to both probes, every other URL
answers 200, and the replacement lookup offers the live URL `http://new`. -/
def oReplAlive : Oracles :=
  { headResp := fun u => if u = "http://dead" then Except.ok 404 else Except.ok 200
    getResp := fun u => if u = "http://dead" then Except.ok 404 else Except.ok 200
    replContent := fun _ => "http://new"
    extra := fun _ => ⟨"TX", "EX", "http://extra", "DX"⟩ }

/-- World in which both `http://dead` and the offered replacement
`http://new2` answer 404 to both probes, and every other URL answers 200. -/
def oReplDead : Oracles :=
  { headResp := fun u =>
      if u = "http://dead" || u = "http://new2" then Except.ok 404 else Except.ok 200
    getResp := fun u =>
      if u = "http://dead" || u = "http://new2" then Except.ok 404 else Except.ok 200
    replContent := fun _ => "http://new2"
    extra := fun _ => ⟨"TX", "EX", "http://extra", "DX"⟩ }

/-- World in which every URL answers 200. -/
def oAllAlive : Oracles :=
  { headResp := fun _ => Except.ok 200
    getResp := fun _ => Except.ok 200
    replContent := fun _ => ""
    extra := fun _ => ⟨"TX", "EX", "http://extra", "DX"⟩ }

/-- An operation failing on its first two invocations and succeeding on the
third. -/
def fnTwoFail : Nat → Except String Nat :=
  fun i => if i = 0 then Except.error "e0" else if i = 1 then Except.error "e1" else Except.ok 7

/-- An operation succeeding immediately. -/
def fnOk : Nat → Except String Nat := fun _ => Except.ok 7

/-- An operation failing on every invocation. -/
def fnFail : Nat → Except String Nat :=
  fun i => if i = 0 then Except.error "e0" else if i = 1 then Except.error "e1"
    else Except.error "e2"

/-- A category listing without a node named "Tech Trends". -/
def repoNoTechTrends : RepoData :=
  ⟨"R2", [⟨"G1", "General"⟩, ⟨"A1", "Announcements"⟩]⟩

/-- A category listing whose only node is named "Tech Trends". -/
def repoWithTechTrends : RepoData :=
  ⟨"R1", [⟨"TT1", "Tech Trends"⟩]⟩

/-- An environment that sets only `DISCUSSION_CATEGORY_ID`. -/
def envOnlyCategoryId : String → Option String :=
  fun k => if k = "DISCUSSION_CATEGORY_ID" then some "CAT123" else none

/- ── Claim theorems ── -/

/-- C3: for `withRetry` with `retries = 2, delay = 500`: an operation that
succeeds on its first attempt is invoked exactly once with no waits; an
operation that fails exactly twice and then succeeds is invoked 3 times with
waits of 500ms then 1000ms (the delay doubling, 1500ms in total); and when
every attempt fails, the error of the last (third) attempt is propagated
unchanged after the same waits. -/
theorem c3_withRetry_behavior {E A : Type} (fn : Nat → Except E A) (a : A)
    (e0 e1 e2 : E) :
    (fn 0 = Except.ok a → withRetry fn 2 500 0 = (Except.ok a, 1, [])) ∧
    (fn 0 = Except.error e0 → fn 1 = Except.error e1 → fn 2 = Except.ok a →
      withRetry fn 2 500 0 = (Except.ok a, 3, [500, 1000]) ∧
      List.sum (withRetry fn 2 500 0).2.2 = 1500) ∧
    (fn 0 = Except.error e0 → fn 1 = Except.error e1 → fn 2 = Except.error e2 →
      withRetry fn 2 500 0 = (Except.error e2, 3, [500, 1000])) := by
  have u2 : withRetry fn 2 500 0 =
      (match fn 0 with
       | Except.ok a => (Except.ok a, 1, [])
       | Except.error _ =>
         ((withRetry fn 1 1000 1).1, (withRetry fn 1 1000 1).2.1 + 1,
          500 :: (withRetry fn 1 1000 1).2.2)) := rfl
  have u1 : withRetry fn 1 1000 1 =
      (match fn 1 with
       | Except.ok a => (Except.ok a, 1, [])
       | Except.error _ =>
         ((withRetry fn 0 2000 2).1, (withRetry fn 0 2000 2).2.1 + 1,
          1000 :: (withRetry fn 0 2000 2).2.2)) := rfl
  have u0 : withRetry fn 0 2000 2 =
      (match fn 2 with
       | Except.ok a => (Except.ok a, 1, [])
       | Except.error e => (Except.error e, 1, [])) := rfl
  refine ⟨?_, ?_, ?_⟩
  · intro h0
    rw [u2, h0]
  · intro h0 h1 h2
    have hr : withRetry fn 2 500 0 = (Except.ok a, 3, [500, 1000]) := by
      rw [u2, h0, u1, h1, u0, h2]
    exact ⟨hr, by rw [hr]; rfl⟩
  · intro h0 h1 h2
    rw [u2, h0, u1, h1, u0, h2]

/-- Witness for C3: the three behaviours at concrete operations. -/
theorem c3_withRetry_behavior_witness :
    withRetry fnOk 2 500 0 = (Except.ok 7, 1, []) ∧
    withRetry fnTwoFail 2 500 0 = (Except.ok 7, 3, [500, 1000]) ∧
    withRetry fnFail 2 500 0 = (Except.error "e2", 3, [500, 1000]) :=
  ⟨(c3_withRetry_behavior fnOk 7 "x" "y" "z").1 rfl,
   ((c3_withRetry_behavior fnTwoFail 7 "e0" "e1" "z").2.1 rfl rfl rfl).1,
   (c3_withRetry_behavior fnFail 7 "e0" "e1" "e2").2.2 rfl rfl rfl⟩

/-- C10: `isUrlAlive` is total and never throws: rendered in the exception
monad it always returns `Except.ok` of the boolean `isUrlAlive` computes, and
when both the HEAD and the GET fetch raise network errors the result is
`Except.ok false` rather than a propagated exception. -/
theorem c10_isUrlAlive_total (head get : Except String Nat) (e1 e2 : String) :
    isUrlAliveE head get = Except.ok (isUrlAlive head get) ∧
    isUrlAliveE (Except.error e1) (Except.error e2) = Except.ok false := by
  constructor
  · cases head with
    | ok s =>
      by_cases hs : statusOk s
      · simp [isUrlAliveE, isUrlAlive, Except.map, hs]
      · cases get with
        | ok s2 =>
          simp [isUrlAliveE, isUrlAlive, getPhase, Except.map, hs]
        | error e =>
          simp [isUrlAliveE, isUrlAlive, getPhase, Except.map, hs]
    | error e =>
      cases get with
      | ok s2 => simp [isUrlAliveE, isUrlAlive, getPhase, Except.map]
      | error e2 => simp [isUrlAliveE, isUrlAlive, getPhase, Except.map]
  · rfl

/-- C7 counterexample: the claim says every liveness probe falls back to a GET
request when HEAD fails, and judges the URL by the pair of probes; but the
inline probe of `sanitizeLinks` issues HEAD only: on a 404 HEAD response it
marks the URL dead without any GET request, even in a world where the GET
would return 200 (where `isUrlAlive` would judge the URL alive). -/
theorem c7_counterexample :
    sanitizeProbe (Except.ok 404) = false ∧
    sanitizeProbeCalls (Except.ok 404) = [Method.headM] ∧
    Method.getM ∉ sanitizeProbeCalls (Except.ok 404) ∧
    isUrlAlive (Except.ok 404) (Except.ok 200) = true := by
  refine ⟨by decide, rfl, by decide, by decide⟩

/-- C7 amended: `isUrlAlive` (generateDiscussionPost.js) probes via HEAD,
falls back to GET exactly when the HEAD fetch is not 2xx or errors, and judges
the URL alive iff one of the two fetches returns 2xx; but the inline probe of
`sanitizeLinks` (unnamed part_007) issues the HEAD request only and treats any
HEAD non-2xx or error as dead, with no GET fallback. -/
theorem c7_amended_probes (head get : Except String Nat) :
    isUrlAlive head get = (respOk head || respOk get) ∧
    isUrlAliveCalls head =
      (if respOk head then [Method.headM] else [Method.headM, Method.getM]) ∧
    sanitizeProbe head = respOk head ∧
    sanitizeProbeCalls head = [Method.headM] := by
    refine ⟨?_, ?_, ?_, rfl⟩
    · cases head with
      | ok s =>
        by_cases hs : statusOk s
        · simp [isUrlAlive, respOk, hs]
        · cases get with
          | ok s2 => simp [isUrlAlive, respOk, getPhase, hs]
          | error e => simp [isUrlAlive, respOk, getPhase, hs]
      | error e =>
        cases get with
        | ok s2 => simp [isUrlAlive, respOk, getPhase]
        | error e2 => simp [isUrlAlive, respOk, getPhase]
    · cases head with
      | ok s =>
        by_cases hs : statusOk s
        · simp [isUrlAliveCalls, respOk, hs]
        · simp [isUrlAliveCalls, respOk, hs]
      | error e => simp [isUrlAliveCalls, respOk]
    · cases head with
      | ok s => simp [sanitizeProbe, respOk]
      | error e => simp [sanitizeProbe, respOk]

/-- C8 counterexample: the claim says a set `DISCUSSION_CATEGORY_ID` is used
as the discussion category and the category lookup is bypassed; but the
configuration block never reads that variable (it is not among the
destructured names), the configuration computed under an environment that
sets it is identical to the one computed under the empty environment, and
`fetchCategory` issues the category-listing query and takes the category id
from its result. -/
theorem c8_counterexample :
    "DISCUSSION_CATEGORY_ID" ∉ configEnvNames ∧
    configuration envOnlyCategoryId = configuration (fun _ => none) ∧
    (fetchCategory repoWithTechTrends).2 = [ApiCall.categoryQuery] ∧
    (fetchCategory repoWithTechTrends).1 = Except.ok ("R1", "TT1") := by
  refine ⟨by decide, by decide, rfl, rfl⟩

/-- C8 amended: no script reads `DISCUSSION_CATEGORY_ID`: it is not among the
environment variables the configuration destructures, the configuration is
unchanged under any setting of that variable, and the category-listing query
is issued on every `fetchCategory` call — there is no bypass. -/
theorem c8_amended_no_bypass (env : String → Option String) (v : Option String)
    (r : RepoData) :
    "DISCUSSION_CATEGORY_ID" ∉ configEnvNames ∧
    configuration (fun k => if k = "DISCUSSION_CATEGORY_ID" then v else env k) =
      configuration env ∧
    (fetchCategory r).2 = [ApiCall.categoryQuery] := by
  refine ⟨by decide, ?_, rfl⟩
  have hk : ∀ K : String, K ≠ "DISCUSSION_CATEGORY_ID" →
      (if K = "DISCUSSION_CATEGORY_ID" then v else env K) = env K :=
    fun K hK => if_neg hK
  simp only [configuration]
  rw [hk "OPENAI_API_KEY" (by decide), hk "OPENAI_MODEL" (by decide),
    hk "GITHUB_REPOSITORY" (by decide), hk "APP_ID" (by decide),
    hk "INSTALLATION_ID" (by decide), hk "APP_PRIVATE_KEY" (by decide)]

/-- C4 counterexample: the claim says the trend-fetching operation either
returns a non-empty parsed array or fails; but `fetchTrendCandidates`
(generateDiscussionPost.js) returns a parsed empty array as a success. -/
theorem c4_counterexample :
    fetchTrendCandidates (some (Json.arr [])) = Except.ok (Json.arr []) := rfl

/-- C4 amended: `fetchTrends` (generateTrendDiscussion.js) satisfies the full
property — it succeeds exactly on a non-empty trimmed response that parses to
a non-empty array, and fails on empty responses, parse failures, non-arrays
and empty arrays; `fetchTrendCandidates` (generateDiscussionPost.js) fails on
a parse failure but passes any parsed value through unchecked, including an
empty array; downstream, `assembleValidTrends` given the empty candidate list
tops up from the supplemental-trend fetch: whenever it terminates it still
returns the join of exactly `NUM_TRENDS` rendered blocks, never an empty
discussion body. -/
theorem c4_fetch_characterization (content : Option String) (parsed : Option Json)
    (xs : List Json) (j : Json) :
    (fetchTrends content parsed = Except.ok xs ↔
      ∃ s, content = some s ∧ jsTrim s ≠ "" ∧ parsed = some (Json.arr xs) ∧ xs ≠ []) ∧
    fetchTrendCandidates none = Except.error FetchError.parseFailure ∧
    fetchTrendCandidates (some j) = Except.ok j ∧
    (∀ (o : Oracles) (fuel : Nat) (md : String),
      assembleValidTrends o [] fuel = some md →
      ∃ items : List TrendItem, items.length = NUM_TRENDS ∧
        md = joinSep "\n\n" (items.map toMarkdown) ∧ md ≠ "") := by
  refine ⟨?_, rfl, rfl, ?_⟩
  constructor
  · intro h
    match content with
    | none => simp [fetchTrends] at h
    | some c =>
      by_cases hc : jsTrim c = ""
      · simp [fetchTrends, hc] at h
      · refine ⟨c, rfl, hc, ?_⟩
        match parsed with
        | none => simp [fetchTrends, hc] at h
        | some (Json.arr ys) =>
          by_cases hys : ys.isEmpty
          · simp [fetchTrends, hc, hys] at h
          · simp only [fetchTrends, hc, if_neg hc, hys, Bool.false_eq_true,
              if_false] at h
            injection h with h
            subst h
            exact ⟨rfl, by simpa [List.isEmpty_iff] using hys⟩
        | some Json.null => simp [fetchTrends, hc] at h
        | some (Json.bool b) => simp [fetchTrends, hc] at h
        | some (Json.num n) => simp [fetchTrends, hc] at h
        | some (Json.str s) => simp [fetchTrends, hc] at h
        | some (Json.obj fs) => simp [fetchTrends, hc] at h
  · rintro ⟨s, rfl, hs, rfl, hne⟩
    have hys : xs.isEmpty = false := by
      rw [Bool.eq_false_iff]
      intro hcon
      exact hne (List.isEmpty_iff.mp hcon)
    simp [fetchTrends, hs, hys]
  · intro o fuel md hrun
    unfold assembleValidTrends at hrun
    cases hw : assembleWhile o fuel (assembleFor o [] [] 0).1
        (assembleFor o [] [] 0).2 with
    | none =>
      rw [hw] at hrun
      exact Option.noConfusion hrun
    | some v =>
      rw [hw] at hrun
      have hmd := Option.some.inj hrun
      obtain ⟨tail, hv, halive, hlen⟩ := assembleWhile_split o fuel _ _ v hw
      have hlen5 : (v.take NUM_TRENDS).length = NUM_TRENDS := by
        rw [List.length_take]
        exact Nat.min_eq_left hlen
      refine ⟨v.take NUM_TRENDS, hlen5, hmd.symm, ?_⟩
      rw [← hmd]
      apply joinSep_toMarkdown_ne_empty
      intro hnil
      rw [hnil] at hlen5
      simp [NUM_TRENDS] at hlen5

/-- Witness for C4 (amended) at a concrete empty candidate list: with every
URL alive and fuel 5, the run assembles five supplemental blocks. -/
theorem c4_fetch_characterization_witness :
    ∃ items : List TrendItem, items.length = NUM_TRENDS ∧
      mdExtraFive = joinSep "\n\n" (items.map toMarkdown) ∧ mdExtraFive ≠ "" :=
  (c4_fetch_characterization none none [] Json.null).2.2.2 oAllAlive 5 mdExtraFive
    (by decide)

/-- C5: when the category listing (of at most 20 candidates) contains no node
named "Tech Trends", the publisher fails with an error naming the missing
category, issues only the category-listing query, never the
`createDiscussion` mutation, and never any category-creation call. -/
theorem c5_missing_category (r : RepoData) (title body : String)
    (hlen : r.categories.length ≤ 20)
    (hnone : ∀ c ∈ r.categories, c.name ≠ "Tech Trends") :
    (postDiscussion r title body).1 =
      Except.error "Discussion category \"Tech Trends\" not found" ∧
    containsSub "Discussion category \"Tech Trends\" not found" "Tech Trends" = true ∧
    (postDiscussion r title body).2 = [ApiCall.categoryQuery] ∧
    (∀ rid cid t b, ApiCall.createDiscussion rid cid t b ∉ (postDiscussion r title body).2) ∧
    (∀ n, ApiCall.createCategory n ∉ (postDiscussion r title body).2) := by
  have hfind : r.categories.find? (fun c => c.name = "Tech Trends") = none := by
    rw [List.find?_eq_none]
    intro x hx
    simp [hnone x hx]
  have hrepo : fetchRepoInfo r =
      Except.error "Discussion category \"Tech Trends\" not found" := by
    unfold fetchRepoInfo
    rw [hfind]
  have hpost : postDiscussion r title body =
      (Except.error "Discussion category \"Tech Trends\" not found",
       [ApiCall.categoryQuery]) := by
    unfold postDiscussion
    rw [hrepo]
  refine ⟨by rw [hpost], by decide, by rw [hpost], ?_, ?_⟩
  · intro rid cid t b
    rw [hpost]
    simp
  · intro n
    rw [hpost]
    simp

/-- Witness for C5 at a concrete two-category listing. -/
theorem c5_missing_category_witness :
    (postDiscussion repoNoTechTrends "t" "b").1 =
      Except.error "Discussion category \"Tech Trends\" not found" ∧
    (postDiscussion repoNoTechTrends "t" "b").2 = [ApiCall.categoryQuery] :=
  ⟨(c5_missing_category repoNoTechTrends "t" "b" (by decide) (by decide)).1,
   (c5_missing_category repoNoTechTrends "t" "b" (by decide) (by decide)).2.2.1⟩

/-- C9: whenever `assembleValidTrends` terminates normally, the markdown it
returns is the join of exactly `NUM_TRENDS` (5) blocks, each rendered from an
item whose URL passed the liveness probe when it was accepted — never fewer
and never more. -/
theorem c9_exactly_five (o : Oracles) (raw : List TrendItem) (fuel : Nat)
    (md : String) (hrun : assembleValidTrends o raw fuel = some md) :
    ∃ items : List TrendItem, items.length = NUM_TRENDS ∧
      (∀ t ∈ items, aliveO o t.url = true) ∧
      md = joinSep "\n\n" (items.map toMarkdown) := by
  unfold assembleValidTrends at hrun
  obtain ⟨t0, hfor, ha0⟩ := assembleFor_split o raw [] 0
  cases hw : assembleWhile o fuel (assembleFor o raw [] 0).1
      (assembleFor o raw [] 0).2 with
  | none =>
    rw [hw] at hrun
    exact Option.noConfusion hrun
  | some v =>
    rw [hw] at hrun
    have hmd := Option.some.inj hrun
    obtain ⟨t1, hv, ha1, hlen⟩ := assembleWhile_split o fuel _ _ v hw
    refine ⟨v.take NUM_TRENDS, ?_, ?_, hmd.symm⟩
    · rw [List.length_take]
      exact Nat.min_eq_left hlen
    · intro t ht
      have htv : t ∈ v := List.take_subset _ _ ht
      rw [hv] at htv
      rcases List.mem_append.mp htv with h | h
      · rw [hfor] at h
        exact ha0 t (by simpa using h)
      · exact ha1 t h

/-- Witness for C9: a concrete all-alive run yields exactly five blocks. -/
theorem c9_exactly_five_witness :
    ∃ items : List TrendItem, items.length = NUM_TRENDS ∧
      (∀ t ∈ items, aliveO oAllAlive t.url = true) ∧
      mdFive = joinSep "\n\n" (items.map toMarkdown) :=
  c9_exactly_five oAllAlive rawTrends5 0 mdFive (by decide)

/-- C1 counterexample: the claim says that when an item's URL fails both
probes and the replacement lookup returns a live URL, the final markdown
contains the anchor text rebound to the new URL; but in the world
`oReplAlive` (original `http://dead` 404 on HEAD and GET, replacement
`http://new` live) the assembled markdown contains the anchor text `E1` yet
neither the replacement URL nor the original: `toMarkdown` renders no URL at
all. -/
theorem c1_counterexample :
    aliveO oReplAlive "http://dead" = false ∧
    getReplacementLink (oReplAlive.replContent "E1") = some "http://new" ∧
    aliveO oReplAlive "http://new" = true ∧
    assembleValidTrends oReplAlive rawTrends5 0 = some mdFive ∧
    containsSub mdFive "E1" = true ∧
    containsSub mdFive "http://new" = false ∧
    containsSub mdFive "http://dead" = false := by
  refine ⟨by decide, by decide, by decide, by decide, by decide, by decide, by decide⟩

/-- C1 amended: when an item's URL fails the liveness probe and the
replacement lookup returns a live URL `r`, the item is accepted with its
`url` field rebound to `r` and heads the assembled list; but `toMarkdown`
does not render the `url` field, so the final markdown opens with the item's
block unchanged and contains no URL for it. -/
theorem c1_amended_rebind (o : Oracles) (item : TrendItem)
    (rest : List TrendItem) (fuel : Nat) (r : String) (md : String)
    (hdead : aliveO o item.url = false)
    (hrepl : getReplacementLink (o.replContent item.exampleTitle) = some r)
    (halive : aliveO o r = true)
    (hrun : assembleValidTrends o (item :: rest) fuel = some md) :
    ∃ others : List TrendItem,
      md = joinSep "\n\n" (List.map toMarkdown ({ item with url := r } :: others)) ∧
      toMarkdown { item with url := r } = toMarkdown item := by
  have hstep : assembleStep o 0 item [] = ([{ item with url := r }], 0) := by
    rw [assembleStep_dead_some hdead hrepl, if_pos halive]
    rfl
  have hfor1 : assembleFor o (item :: rest) [] 0 =
      assembleFor o rest [{ item with url := r }] 0 := by
    conv_lhs => unfold assembleFor
    rw [hstep]
    rw [if_neg (by simp [NUM_TRENDS])]
  unfold assembleValidTrends at hrun
  rw [hfor1] at hrun
  obtain ⟨t0, hfor, ha0⟩ := assembleFor_split o rest [{ item with url := r }] 0
  cases hw : assembleWhile o fuel
      (assembleFor o rest [{ item with url := r }] 0).1
      (assembleFor o rest [{ item with url := r }] 0).2 with
  | none =>
    rw [hw] at hrun
    exact Option.noConfusion hrun
  | some v =>
    rw [hw] at hrun
    have hmd := Option.some.inj hrun
    obtain ⟨t1, hv, ha1, hlen⟩ := assembleWhile_split o fuel _ _ v hw
    rw [hfor] at hv
    have hv2 : v = { item with url := r } :: (t0 ++ t1) := by
      rw [hv]
      simp
    refine ⟨(t0 ++ t1).take 4, ?_, rfl⟩
    rw [← hmd, hv2]
    rfl

/-- Witness for C1 (amended) at the concrete world `oReplAlive`. -/
theorem c1_amended_rebind_witness :
    ∃ others : List TrendItem,
      mdFive = joinSep "\n\n"
        (List.map toMarkdown ({ itemDead with url := "http://new" } :: others)) ∧
      toMarkdown { itemDead with url := "http://new" } = toMarkdown itemDead :=
  c1_amended_rebind oReplAlive itemDead restItems 0 "http://new" mdFive
    (by decide) (by decide) (by decide) (by decide)

/-- C2 counterexample: the claim says that a link whose URL and whose single
replacement both fail liveness ends up as its anchor text in plain text in
the final output; but in `assembleValidTrends` (world `oReplDead`: original
and replacement both 404) the failed item is dropped entirely and a fresh
trend is fetched instead — the anchor text `E1` does not occur in the final
markdown at all (the run does continue). -/
theorem c2_counterexample :
    aliveO oReplDead "http://dead" = false ∧
    getReplacementLink (oReplDead.replContent "E1") = some "http://new2" ∧
    aliveO oReplDead "http://new2" = false ∧
    assembleValidTrends oReplDead rawTrends5 0 = some mdDropped ∧
    containsSub mdDropped "E1" = false := by
  refine ⟨by decide, by decide, by decide, by decide, by decide⟩

/-- C2 amended: `sanitizeLinks` (which requests no replacement) strips a dead
link down to its anchor text as plain text and the run continues: for a
markdown `pre [t](http://u') post` whose single link is dead and whose anchor
text contains no dollar sign (the anchor is passed as the raw replacement
string of `String.prototype.replace`, which expands `$`-sequences in it), the
output is exactly `pre t post` (after one probe of the URL), and the output
contains no markdown link at all; while in `assembleValidTrends` an item
whose URL and whose replacement both fail liveness is dropped in favour of
one fresh additional trend — its anchor text is not kept. -/
theorem c2_amended_strip (headResp : String → Except String Nat) (o : Oracles)
    (k : Nat) (item : TrendItem) (valid : List TrendItem) (r : String)
    (pre t u2 post : String)
    (hpre : ∀ c ∈ pre.data, c ≠ '[')
    (hpost : ∀ c ∈ post.data, c ≠ '[')
    (ht0 : t.data ≠ [])
    (htr : ∀ c ∈ t.data, c ≠ ']')
    (htl : ∀ c ∈ t.data, c ≠ '[')
    (htd : '$' ∉ t.data)
    (hu0 : u2.data ≠ [])
    (hu1 : ∀ c ∈ u2.data, isUrlChar c = true)
    (hdead : sanitizeProbe (headResp ("http://" ++ u2)) = false) :
    sanitizeLinks headResp (pre ++ "[" ++ t ++ "](http://" ++ u2 ++ ")" ++ post) =
      (pre ++ t ++ post, ["http://" ++ u2]) ∧
    extractLinks (pre ++ t ++ post) = [] ∧
    (aliveO o item.url = false →
      getReplacementLink (o.replContent item.exampleTitle) = some r →
      aliveO o r = false →
      assembleStep o k item valid =
        (if aliveO o (o.extra k).url then valid ++ [o.extra k] else valid, k + 1)) := by
  have hmk : ∀ s : String, String.mk s.data = s := fun s => by cases s; rfl
  obtain ⟨tc, tcs, htc⟩ : ∃ a l, t.data = a :: l := by
    cases hd : t.data with
    | nil => exact absurd hd ht0
    | cons a l => exact ⟨a, l, rfl⟩
  obtain ⟨uc, ucs, huc⟩ : ∃ a l, u2.data = a :: l := by
    cases hd : u2.data with
    | nil => exact absurd hd hu0
    | cons a l => exact ⟨a, l, rfl⟩
  have htr2 : ∀ c ∈ tc :: tcs, c ≠ ']' := fun c hc => htr c (by rw [htc]; exact hc)
  have hu12 : ∀ c ∈ uc :: ucs, isUrlChar c = true :=
    fun c hc => hu1 c (by rw [huc]; exact hc)
  have hmd : (pre ++ "[" ++ t ++ "](http://" ++ u2 ++ ")" ++ post).data =
      pre.data ++
        ('[' :: (t.data ++ ']' :: '(' :: (httpChars ++ (u2.data ++ ')' :: post.data)))) := by
    simp only [String.data_append]
    simp [httpChars, List.append_assoc]
  have hx : extractLinks (pre ++ "[" ++ t ++ "](http://" ++ u2 ++ ")" ++ post) =
      [(t, "http://" ++ u2)] := by
    rw [extractLinks_eq_aux, hmd, extract_skip pre.data _ hpre, htc, huc]
    rw [extractLinksAux_cons_some (matchLink_cons_boundary tc tcs uc ucs post.data htr2 hu12)]
    have hpost0 : extractLinksAux post.data = [] := by
      have h := extract_skip post.data [] hpost
      rw [List.append_nil] at h
      rw [h]
      exact extractLinksAux_nil
    rw [hpost0]
    have he1 : String.mk (tc :: tcs) = t := by rw [← htc]
    have he2 : String.mk (httpChars ++ uc :: ucs) = "http://" ++ u2 := by
      apply strData_ext
      rw [String.data_append, huc]
      rfl
    rw [he1, he2]
  have hrep : replaceFirst (pre ++ "[" ++ t ++ "](http://" ++ u2 ++ ")" ++ post)
      (linkPattern t ("http://" ++ u2)) t = pre ++ t ++ post := by
    apply strData_ext
    unfold replaceFirst replaceFirstCh
    rw [hmk]
    have hpat : (linkPattern t ("http://" ++ u2)).data =
        '[' :: (t.data ++ ']' :: '(' :: (httpChars ++ (u2.data ++ [')']))) := by
      unfold linkPattern
      simp only [String.data_append]
      simp [httpChars, List.append_assoc]
    have hmd2 : (pre ++ "[" ++ t ++ "](http://" ++ u2 ++ ")" ++ post).data =
        pre.data ++
          ('[' :: (t.data ++ ']' :: '(' :: (httpChars ++ (u2.data ++ [')'])))) ++
          post.data := by
      rw [hmd]
      simp [httpChars, List.append_assoc]
    rw [hmd2, hpat]
    rw [replaceFirst_boundary htd pre.data post.data [] hpre]
    rw [String.data_append, String.data_append]
  have hsan : sanitizeLinks headResp (pre ++ "[" ++ t ++ "](http://" ++ u2 ++ ")" ++ post) =
      (pre ++ t ++ post, ["http://" ++ u2]) := by
    unfold sanitizeLinks
    rw [hx]
    rw [show sanitizeLoop (fun u => sanitizeProbe (headResp u)) [(t, "http://" ++ u2)] []
        (pre ++ "[" ++ t ++ "](http://" ++ u2 ++ ")" ++ post) =
        ((sanitizeLoop (fun u => sanitizeProbe (headResp u)) [] ["http://" ++ u2]
          (if sanitizeProbe (headResp ("http://" ++ u2))
           then (pre ++ "[" ++ t ++ "](http://" ++ u2 ++ ")" ++ post)
           else replaceFirst (pre ++ "[" ++ t ++ "](http://" ++ u2 ++ ")" ++ post)
             (linkPattern t ("http://" ++ u2)) t)).1,
         ("http://" ++ u2) :: (sanitizeLoop (fun u => sanitizeProbe (headResp u)) []
          ["http://" ++ u2]
          (if sanitizeProbe (headResp ("http://" ++ u2))
           then (pre ++ "[" ++ t ++ "](http://" ++ u2 ++ ")" ++ post)
           else replaceFirst (pre ++ "[" ++ t ++ "](http://" ++ u2 ++ ")" ++ post)
             (linkPattern t ("http://" ++ u2)) t)).2)
      from by simp [sanitizeLoop]]
    rw [hdead]
    simp only [Bool.false_eq_true, if_false]
    rw [hrep]
    rfl
  refine ⟨hsan, ?_, ?_⟩
  · rw [extractLinks_eq_aux]
    have hdata : (pre ++ t ++ post).data = pre.data ++ t.data ++ post.data := by
      rw [String.data_append, String.data_append]
    rw [hdata]
    have hnob : ∀ c ∈ pre.data ++ t.data ++ post.data, c ≠ '[' := by
      intro c hc
      rcases List.mem_append.mp hc with h | h
      · rcases List.mem_append.mp h with h2 | h2
        · exact hpre c h2
        · exact htl c h2
      · exact hpost c h
    have h := extract_skip (pre.data ++ t.data ++ post.data) [] hnob
    rw [List.append_nil] at h
    rw [h]
    exact extractLinksAux_nil
  · intro h1 h2 h3
    rw [assembleStep_dead_some h1 h2, if_neg (by simp [h3])]

/-- Witness for C2 (amended) at a concrete dead single-link markdown. -/
theorem c2_amended_strip_witness :
    sanitizeLinks (fun _ => Except.ok 404)
        ("see " ++ "[" ++ "a" ++ "](http://" ++ "x" ++ ")" ++ " end") =
      ("see " ++ "a" ++ " end", ["http://" ++ "x"]) ∧
    extractLinks ("see " ++ "a" ++ " end") = [] ∧
    (aliveO oReplDead itemDead.url = false →
      getReplacementLink (oReplDead.replContent itemDead.exampleTitle) =
        some "http://new2" →
      aliveO oReplDead "http://new2" = false →
      assembleStep oReplDead 0 itemDead [] =
        (if aliveO oReplDead (oReplDead.extra 0).url then [] ++ [oReplDead.extra 0]
         else [], 0 + 1)) :=
  c2_amended_strip (fun _ => Except.ok 404) oReplDead 0 itemDead [] "http://new2"
    "see " "a" "x" " end"
    (by decide) (by decide) (by decide) (by decide) (by decide) (by decide)
    (by decide) (by decide) (by decide)

/-- C6: for every markdown input, each distinct URL among the scanned links is
probed exactly once by `sanitizeLinks`, however many links carry it: the count
of a URL in the probe list is 1 if some link carries it and 0 otherwise. -/
theorem c6_probe_once (headResp : String → Except String Nat) (md u : String) :
    List.count u (sanitizeLinks headResp md).2 =
      if u ∈ (extractLinks md).map Prod.snd then 1 else 0 := by
  unfold sanitizeLinks
  rw [sanitizeLoop_count]
  refine if_congr ?_ rfl rfl
  simp

end TrendScripts
